import Mathlib

/-!
# Verification of the primer-design core of primer_app_qt.py

Shallow embedding of the pure computational functions of the primer design
utility: reverse_complement, calc_gc_content, calc_tm, dimer_score,
hairpin_score, insert_re_site and design_primers (lines 15-71 of the
source).  Python strings are modelled as `List Char`; Python float results
are modelled as exact rationals, with the two-decimal rounding modelled as
ideal round-half-to-even; the exceptions design_primers can raise (the
three ValueError cases, the KeyError of a failed dictionary index, and the
ZeroDivisionError of calc_gc_content on an empty string) are modelled with
`Except`.
-/

namespace PrimerApp

/-- The restriction-enzyme dictionary RESTRICTION_ENZYMES (lines 15-21):
an association of enzyme name to recognition site. -/
def RESTRICTION_ENZYMES : List (List Char × List Char) :=
  [("EcoRI".data, "GAATTC".data),
   ("BamHI".data, "GGATCC".data),
   ("HindIII".data, "AAGCTT".data),
   ("XhoI".data, "CTCGAG".data),
   ("NotI".data, "GCGGCCGC".data)]

/-- Dictionary lookup in RESTRICTION_ENZYMES; `none` models a KeyError. -/
def enz_get (name : List Char) : Option (List Char) :=
  List.lookup name RESTRICTION_ENZYMES

/-- The per-character table built by str.maketrans("ACGT", "TGCA"):
characters outside ACGT are left unchanged by translate. -/
def comp (c : Char) : Char :=
  if c = 'A' then 'T'
  else if c = 'C' then 'G'
  else if c = 'G' then 'C'
  else if c = 'T' then 'A'
  else c

/-- reverse_complement(seq) (lines 23-24): translate each character through
the ACGT table, then reverse the string. -/
def reverse_complement (s : List Char) : List Char :=
  (s.map comp).reverse

/-- Ideal round-half-to-even of a rational to an integer, modelling the
bankers rounding performed by the Python builtin round. -/
def rhe (q : ℚ) : ℤ :=
  if q - ⌊q⌋ < 1/2 then ⌊q⌋
  else if 1/2 < q - ⌊q⌋ then ⌊q⌋ + 1
  else if Even ⌊q⌋ then ⌊q⌋ else ⌊q⌋ + 1

/-- round(q, 2): round half-to-even at two decimal places. -/
def pyRound2 (q : ℚ) : ℚ := (rhe (100 * q) : ℚ) / 100

/-- sum(1 for base in seq.upper() if base in "GC"). -/
def gcCount (s : List Char) : ℕ :=
  (s.map Char.toUpper).countP (fun c => c == 'G' || c == 'C')

/-- The value round((gcCount / len(seq)) * 100, 2) computed by
calc_gc_content on a nonempty string. -/
def gcVal (s : List Char) : ℚ :=
  pyRound2 ((gcCount s : ℚ) / (s.length : ℚ) * 100)

/-- calc_gc_content(seq) (lines 26-27).  On the empty string the division
by len(seq) raises ZeroDivisionError, modelled as `none`. -/
def calc_gc_content (s : List Char) : Option ℚ :=
  if s.length = 0 then none
  else some (gcVal s)

/-- seq.count(c) for a single character. -/
def baseCount (s : List Char) (c : Char) : ℕ :=
  s.countP (fun d => d == c)

/-- calc_tm(seq) (lines 29-35): the Wallace rule below 14 bases, otherwise
round(64.9 + 41 * (G + C - 16.4) / N, 2). -/
def calc_tm (s : List Char) : ℚ :=
  let u := s.map Char.toUpper
  if u.length < 14 then
    ((2 * (baseCount u 'A' + baseCount u 'T')
      + 4 * (baseCount u 'G' + baseCount u 'C') : ℕ) : ℚ)
  else
    pyRound2 (649/10
      + 41 * (((baseCount u 'G' + baseCount u 'C' : ℕ) : ℚ) - 164/10) / (u.length : ℚ))

/-- The Python slice l[a:b] for 0 ≤ a ≤ b, clamped at the end of the list
exactly as in Python. -/
def pySlice (l : List Char) (a b : ℕ) : List Char :=
  (l.drop a).take (b - a)

/-- dimer_score(seq) (lines 37-38): the number of positions i in
range(len(seq)-3) whose length-4 window has its reverse complement
occurring somewhere in seq (the Python substring test). -/
def dimer_score (s : List Char) : ℕ :=
  (List.range (s.length - 3)).countP
    (fun i => decide (reverse_complement (pySlice s i (i + 4)) <:+: s))

/-- hairpin_score(seq) (lines 40-41): the number of positions i in
range(len(seq)-3) whose length-4 window equals its own reverse
complement. -/
def hairpin_score (s : List Char) : ℕ :=
  (List.range (s.length - 3)).countP
    (fun i => pySlice s i (i + 4) == reverse_complement (pySlice s i (i + 4)))

/-- The two-character string literal passed as the direction argument on
lines 65-66: the digit 5 followed by the ASCII apostrophe (0x27). -/
def fivePrime : List Char := ['5', '\x27']

/-- insert_re_site(primer, enzyme, direction) (lines 43-45): prepend the
enzyme site when the direction equals the five-prime literal, append it
otherwise; an unknown enzyme contributes the empty site because the
source uses dict.get with default. -/
def insert_re_site (primer enzyme direction : List Char) : List Char :=
  let site := (enz_get enzyme).getD []
  if direction == fivePrime then site ++ primer else primer ++ site

/-- ASCII whitespace matched by the regex class backslash-s. -/
def isWS (c : Char) : Bool :=
  c == ' ' || c == '\t' || c == '\n' || c == '\x0d' || c == '\x0b' || c == '\x0c'

/-- Lines 48-49 of the source: re.sub applied to the uppercased string —
uppercase every character, then delete every whitespace character. -/
def normalize (s : List Char) : List Char :=
  (s.map Char.toUpper).filter (fun c => !(isWS c))

/-- hay.find(needle) of a Python str: the index of the first occurrence of
needle as a substring, `none` when absent (Python returns -1). -/
def findSub (hay needle : List Char) : Option ℕ :=
  (List.range (hay.length + 1)).find? (fun i => (hay.drop i).take needle.length == needle)

/-- The number of positions at which needle occurs in hay; used to state
that a source contains the target exactly once. -/
def subCount (hay needle : List Char) : ℕ :=
  (List.range (hay.length + 1)).countP (fun i => (hay.drop i).take needle.length == needle)

/-- One row of the result table (lines 69-70): name, sequence, length,
GC percentage, melting temperature, dimer score, hairpin score. -/
structure PrimerRow where
  name : List Char
  seq : List Char
  len : ℕ
  gc : ℚ
  tm : ℚ
  dimer : ℕ
  hairpin : ℕ
deriving DecidableEq

/-- The exceptions design_primers can raise: the three ValueError cases of
lines 52-63, the KeyError of line 62 on an unknown enzyme name, and the
ZeroDivisionError of calc_gc_content on an empty primer. -/
inductive DesignError where
  | targetNotFound
  | insufficientFlank
  | enzymeCollision
  | keyError
  | zeroDivision
deriving DecidableEq

instance : DecidableEq (Except DesignError (PrimerRow × PrimerRow)) :=
  fun a b =>
    match a, b with
    | .ok x, .ok y => decidable_of_iff (x = y) (by simp)
    | .error x, .error y => decidable_of_iff (x = y) (by simp)
    | .ok _, .error _ => isFalse (by simp)
    | .error _, .ok _ => isFalse (by simp)

/-- Build one result row for a finished primer (lines 69-70). -/
def mkRow (label s : List Char) (g : ℚ) : PrimerRow :=
  ⟨label, s, s.length, g, calc_tm s, dimer_score s, hairpin_score s⟩

/-- Lines 68-71: assemble the two result rows; calc_gc_content of an empty
primer would raise ZeroDivisionError. -/
def mkRows (f_final r_final : List Char) : Except DesignError (PrimerRow × PrimerRow) :=
  match calc_gc_content f_final, calc_gc_content r_final with
  | some gf, some gr => .ok (mkRow "Forward".data f_final gf, mkRow "Reverse".data r_final gr)
  | _, _ => .error .zeroDivision

/-- Lines 51-71 of design_primers, operating on the already-normalized
source nf and target nt.  The left-to-right, short-circuit evaluation
order of the collision test on line 62 is kept: the dictionary index for
the reverse enzyme happens only when the forward membership test is
false. -/
def design_core (nf nt : List Char) (f_len r_len : ℕ) (f_enzyme r_enzyme : List Char) :
    Except DesignError (PrimerRow × PrimerRow) :=
  match findSub nf nt with
  | none => .error .targetNotFound
  | some start =>
    if start < f_len ∨ nf.length ≤ start + nt.length + r_len then
      .error .insufficientFlank
    else
      match enz_get f_enzyme with
      | none => .error .keyError
      | some fsite =>
        if fsite <:+: pySlice nf (start - f_len) start then
          .error .enzymeCollision
        else
          match enz_get r_enzyme with
          | none => .error .keyError
          | some rsite =>
            if rsite <:+: reverse_complement
                (pySlice nf (start + nt.length) (start + nt.length + r_len)) then
              .error .enzymeCollision
            else
              mkRows
                (insert_re_site (pySlice nf (start - f_len) start) f_enzyme fivePrime)
                (insert_re_site (reverse_complement
                  (pySlice nf (start + nt.length) (start + nt.length + r_len)))
                  r_enzyme fivePrime)

/-- design_primers(full_seq, target_seq, f_len, r_len, f_enzyme, r_enzyme)
(lines 47-71): normalize both sequences, then run the core pipeline. -/
def design_primers (full_seq target_seq : List Char) (f_len r_len : ℕ)
    (f_enzyme r_enzyme : List Char) : Except DesignError (PrimerRow × PrimerRow) :=
  design_core (normalize full_seq) (normalize target_seq) f_len r_len f_enzyme r_enzyme

/-- The argument record of one design_primers invocation. -/
structure DesignArgs where
  full_seq : List Char
  target_seq : List Char
  f_len : ℕ
  r_len : ℕ
  f_enzyme : List Char
  r_enzyme : List Char

/-- One invocation of design_primers on an argument record. -/
def runCall (a : DesignArgs) : Except DesignError (PrimerRow × PrimerRow) :=
  design_primers a.full_seq a.target_seq a.f_len a.r_len a.f_enzyme a.r_enzyme

/-- A session: a sequence of design_primers calls one after another.  The
function reads no state besides its arguments, so a session is a plain
map. -/
def runSession (calls : List DesignArgs) :
    List (Except DesignError (PrimerRow × PrimerRow)) :=
  calls.map runCall

/-- Written from the amended claim C2: the exact condition under which
design_primers raises, for enzymes taken from the dictionary — the target
is absent, or the leading flank is shorter than f_len, or at most r_len
bases follow the target, or the recognition site of the selected enzyme
occurs inside the corresponding primer core. -/
def errCond (nf nt : List Char) (f_len r_len : ℕ) (fe re : List Char) : Prop :=
  match findSub nf nt with
  | none => True
  | some start =>
      start < f_len ∨ nf.length ≤ start + nt.length + r_len ∨
      (enz_get fe).getD [] <:+: pySlice nf (start - f_len) start ∨
      (enz_get re).getD [] <:+: reverse_complement
        (pySlice nf (start + nt.length) (start + nt.length + r_len))

/-! ## Helper lemmas -/

theorem comp_comp (c : Char) : comp (comp c) = c := by
  by_cases h1 : c = 'A'
  · subst h1; decide
  · by_cases h2 : c = 'C'
    · subst h2; decide
    · by_cases h3 : c = 'G'
      · subst h3; decide
      · by_cases h4 : c = 'T'
        · subst h4; decide
        · simp [comp, h1, h2, h3, h4]

theorem slice_isSub (s : List Char) (i k : ℕ) : pySlice s i k <:+: s := by
  unfold pySlice
  exact List.IsInfix.trans
    ( List.IsPrefix.isInfix ( List.take_prefix _ _))
    ( List.IsSuffix.isInfix ( List.drop_suffix _ _))

theorem enz_get_ne_nil {e s : List Char} (h : enz_get e = some s) : s ≠ [] := by
  unfold enz_get RESTRICTION_ENZYMES at h
  simp only [List.lookup] at h
  repeat' split at h
  all_goals (try cases h)
  all_goals decide

theorem design_core_find_none (nf nt : List Char) (f_len r_len : ℕ) (fe re : List Char)
    (h : findSub nf nt = none) :
    design_core nf nt f_len r_len fe re = .error .targetNotFound := by
  unfold design_core
  rw [h]

theorem design_core_insufficient {nf nt : List Char} {f_len r_len : ℕ} (fe re : List Char)
    {start : ℕ} (h : findSub nf nt = some start)
    (hins : start < f_len ∨ nf.length ≤ start + nt.length + r_len) :
    design_core nf nt f_len r_len fe re = .error .insufficientFlank := by
  unfold design_core
  simp only [h]
  rw [if_pos hins]

theorem design_core_keyError_f {nf nt : List Char} {f_len r_len : ℕ} {fe : List Char}
    (re : List Char) {start : ℕ} (h : findSub nf nt = some start)
    (hins : ¬(start < f_len ∨ nf.length ≤ start + nt.length + r_len))
    (hfe : enz_get fe = none) :
    design_core nf nt f_len r_len fe re = .error .keyError := by
  unfold design_core
  simp only [h, hfe]
  rw [if_neg hins]

theorem design_core_collision_f {nf nt : List Char} {f_len r_len : ℕ} {fe : List Char}
    (re : List Char) {start : ℕ} {fsite : List Char}
    (h : findSub nf nt = some start)
    (hins : ¬(start < f_len ∨ nf.length ≤ start + nt.length + r_len))
    (hfe : enz_get fe = some fsite)
    (hcf : fsite <:+: pySlice nf (start - f_len) start) :
    design_core nf nt f_len r_len fe re = .error .enzymeCollision := by
  unfold design_core
  simp only [h, hfe]
  rw [if_neg hins, if_pos hcf]

theorem design_core_keyError_r {nf nt : List Char} {f_len r_len : ℕ} {fe re : List Char}
    {start : ℕ} {fsite : List Char}
    (h : findSub nf nt = some start)
    (hins : ¬(start < f_len ∨ nf.length ≤ start + nt.length + r_len))
    (hfe : enz_get fe = some fsite)
    (hcf : ¬ fsite <:+: pySlice nf (start - f_len) start)
    (hre : enz_get re = none) :
    design_core nf nt f_len r_len fe re = .error .keyError := by
  unfold design_core
  simp only [h, hfe, hre]
  rw [if_neg hins, if_neg hcf]

theorem design_core_collision_r {nf nt : List Char} {f_len r_len : ℕ} {fe re : List Char}
    {start : ℕ} {fsite rsite : List Char}
    (h : findSub nf nt = some start)
    (hins : ¬(start < f_len ∨ nf.length ≤ start + nt.length + r_len))
    (hfe : enz_get fe = some fsite)
    (hcf : ¬ fsite <:+: pySlice nf (start - f_len) start)
    (hre : enz_get re = some rsite)
    (hcr : rsite <:+: reverse_complement
      (pySlice nf (start + nt.length) (start + nt.length + r_len))) :
    design_core nf nt f_len r_len fe re = .error .enzymeCollision := by
  unfold design_core
  simp only [h, hfe, hre]
  rw [if_neg hins, if_neg hcf, if_pos hcr]

theorem design_core_success {nf nt : List Char} {f_len r_len : ℕ} {fe re : List Char}
    {start : ℕ} {fsite rsite : List Char}
    (h : findSub nf nt = some start)
    (hins : ¬(start < f_len ∨ nf.length ≤ start + nt.length + r_len))
    (hfe : enz_get fe = some fsite)
    (hcf : ¬ fsite <:+: pySlice nf (start - f_len) start)
    (hre : enz_get re = some rsite)
    (hcr : ¬ rsite <:+: reverse_complement
      (pySlice nf (start + nt.length) (start + nt.length + r_len))) :
    design_core nf nt f_len r_len fe re =
      mkRows (fsite ++ pySlice nf (start - f_len) start)
        (rsite ++ reverse_complement
          (pySlice nf (start + nt.length) (start + nt.length + r_len))) := by
  unfold design_core
  simp only [h, hfe, hre]
  rw [if_neg hins, if_neg hcf, if_neg hcr]
  unfold insert_re_site
  rw [hfe, hre]
  simp

theorem mkRows_ok {f r : List Char} (hf : f ≠ []) (hr : r ≠ []) :
    mkRows f r = .ok (mkRow "Forward".data f (gcVal f), mkRow "Reverse".data r (gcVal r)) := by
  unfold mkRows calc_gc_content
  rw [if_neg (by simpa using hf), if_neg (by simpa using hr)]

theorem rhe_nonneg {q : ℚ} (h : 0 ≤ q) : 0 ≤ rhe q := by
  unfold rhe
  have hf : (0:ℤ) ≤ ⌊q⌋ := Int.floor_nonneg.mpr h
  split_ifs <;> omega

theorem floor_succ_le {q : ℚ} {B : ℤ} (h : q ≤ (B:ℚ)) (h1 : ¬(q - ⌊q⌋ < 1/2)) :
    ⌊q⌋ + 1 ≤ B := by
  by_contra hc
  push_neg at hc
  have hfB : ⌊q⌋ ≤ ⌊(B:ℚ)⌋ := Int.floor_le_floor h
  rw [Int.floor_intCast] at hfB
  have hBf : ⌊q⌋ = B := by omega
  have hqB : q = (B:ℚ) := le_antisymm h (by rw [← hBf]; exact Int.floor_le q)
  apply h1
  rw [hqB, Int.floor_intCast]
  norm_num

theorem rhe_le {q : ℚ} {B : ℤ} (h : q ≤ (B:ℚ)) : rhe q ≤ B := by
  have hfB : ⌊q⌋ ≤ B := by
    have := Int.floor_le_floor h
    rwa [Int.floor_intCast] at this
  unfold rhe
  split_ifs with h1 h2 h3
  · exact hfB
  · exact floor_succ_le h h1
  · exact hfB
  · exact floor_succ_le h h1

theorem pyRound2_nonneg {q : ℚ} (h : 0 ≤ q) : 0 ≤ pyRound2 q := by
  unfold pyRound2
  apply div_nonneg _ (by norm_num)
  exact_mod_cast rhe_nonneg (by positivity)

theorem pyRound2_le_100 {q : ℚ} (h : q ≤ 100) : pyRound2 q ≤ 100 := by
  unfold pyRound2
  rw [div_le_iff (by norm_num : (0:ℚ) < 100)]
  have h1 : rhe (100 * q) ≤ (10000 : ℤ) := rhe_le (by push_cast; linarith)
  calc ((rhe (100 * q) : ℚ)) ≤ (10000 : ℚ) := by exact_mod_cast h1
    _ = 100 * 100 := by norm_num

theorem gcCount_le_length (s : List Char) : gcCount s ≤ s.length := by
  unfold gcCount
  calc (s.map Char.toUpper).countP (fun c => c == 'G' || c == 'C')
      ≤ (s.map Char.toUpper).length := List.countP_le_length _
    _ = s.length := List.length_map _ _

theorem gcVal_bounds {s : List Char} (h : s ≠ []) :
    0 ≤ gcVal s ∧ gcVal s ≤ 100 := by
  unfold gcVal
  have hl : 0 < (s.length : ℚ) := by
    have := List.length_pos.mpr h
    exact_mod_cast this
  constructor
  · exact pyRound2_nonneg (by positivity)
  · apply pyRound2_le_100
    have hle : (gcCount s : ℚ) ≤ (s.length : ℚ) := by exact_mod_cast gcCount_le_length s
    have : (gcCount s : ℚ) / (s.length : ℚ) ≤ 1 := (div_le_one hl).mpr hle
    linarith

theorem pySlice_length {l : List Char} {a b : ℕ} (hab : a ≤ b) (hbl : b ≤ l.length) :
    (pySlice l a b).length = b - a := by
  unfold pySlice
  simp only [List.length_take, List.length_drop]
  omega

theorem reverse_complement_length (s : List Char) :
    (reverse_complement s).length = s.length := by
  simp [reverse_complement]

theorem design_primers_ok_inv {full tgt : List Char} {f_len r_len : ℕ}
    {fe re : List Char} {rf rr : PrimerRow}
    (hok : design_primers full tgt f_len r_len fe re = .ok (rf, rr)) :
    ∃ start fsite rsite,
      findSub (normalize full) (normalize tgt) = some start ∧
      enz_get fe = some fsite ∧ enz_get re = some rsite ∧
      f_len ≤ start ∧
      start + (normalize tgt).length + r_len < (normalize full).length ∧
      rf = mkRow "Forward".data
        (fsite ++ pySlice (normalize full) (start - f_len) start)
        (gcVal (fsite ++ pySlice (normalize full) (start - f_len) start)) ∧
      rr = mkRow "Reverse".data
        (rsite ++ reverse_complement (pySlice (normalize full)
          (start + (normalize tgt).length) (start + (normalize tgt).length + r_len)))
        (gcVal (rsite ++ reverse_complement (pySlice (normalize full)
          (start + (normalize tgt).length) (start + (normalize tgt).length + r_len)))) := by
  unfold design_primers at hok
  cases hfind : findSub (normalize full) (normalize tgt) with
  | none =>
    rw [design_core_find_none _ _ _ _ _ _ hfind] at hok
    simp at hok
  | some start =>
    by_cases hins : start < f_len ∨
        (normalize full).length ≤ start + (normalize tgt).length + r_len
    · rw [design_core_insufficient fe re hfind hins] at hok
      simp at hok
    · cases hfe : enz_get fe with
      | none =>
        rw [design_core_keyError_f re hfind hins hfe] at hok
        simp at hok
      | some fsite =>
        by_cases hcf : fsite <:+: pySlice (normalize full) (start - f_len) start
        · rw [design_core_collision_f re hfind hins hfe hcf] at hok
          simp at hok
        · cases hre : enz_get re with
          | none =>
            rw [design_core_keyError_r hfind hins hfe hcf hre] at hok
            simp at hok
          | some rsite =>
            by_cases hcr : rsite <:+: reverse_complement (pySlice (normalize full)
                (start + (normalize tgt).length) (start + (normalize tgt).length + r_len))
            · rw [design_core_collision_r hfind hins hfe hcf hre hcr] at hok
              simp at hok
            · rw [design_core_success hfind hins hfe hcf hre hcr] at hok
              rw [mkRows_ok
                (fun hc => enz_get_ne_nil hfe (List.append_eq_nil.mp hc).1)
                (fun hc => enz_get_ne_nil hre (List.append_eq_nil.mp hc).1)] at hok
              injection hok with hok
              have h1 := congrArg Prod.fst hok
              have h2 := congrArg Prod.snd hok
              simp only at h1 h2
              exact ⟨start, fsite, rsite, rfl, rfl, rfl, by omega, by omega,
                h1.symm, h2.symm⟩

theorem errCond_none {nf nt : List Char} (f_len r_len : ℕ) (fe re : List Char)
    (h : findSub nf nt = none) : errCond nf nt f_len r_len fe re := by
  unfold errCond
  rw [h]
  trivial

theorem errCond_some {nf nt : List Char} (f_len r_len : ℕ) (fe re : List Char)
    {start : ℕ} (h : findSub nf nt = some start) :
    errCond nf nt f_len r_len fe re ↔
      (start < f_len ∨ nf.length ≤ start + nt.length + r_len ∨
       (enz_get fe).getD [] <:+: pySlice nf (start - f_len) start ∨
       (enz_get re).getD [] <:+: reverse_complement
         (pySlice nf (start + nt.length) (start + nt.length + r_len))) := by
  unfold errCond
  rw [h]

/-! ## Claims -/

/-- C1, counterexample: on the source AAAAACCCCCGGGGGTTTTTT with target
CCCCCGGGGG, primer lengths 5 and 5 and enzyme EcoRI on both sides, the
call succeeds, the target occurs exactly once at index 5 with flanks of
the required size, yet the returned forward primer is GAATTCAAAAA — the
EcoRI site concatenated before the window — and not the bare 5-character
window immediately preceding the target, as the claim states. -/
theorem design_primers_forward_not_bare_window :
    subCount (normalize "AAAAACCCCCGGGGGTTTTTT".data) (normalize "CCCCCGGGGG".data) = 1 ∧
    findSub (normalize "AAAAACCCCCGGGGGTTTTTT".data) (normalize "CCCCCGGGGG".data) = some 5 ∧
    (design_primers "AAAAACCCCCGGGGGTTTTTT".data "CCCCCGGGGG".data 5 5
        "EcoRI".data "EcoRI".data).toOption.map (fun p => p.1.seq)
      = some "GAATTCAAAAA".data ∧
    "GAATTCAAAAA".data ≠ pySlice (normalize "AAAAACCCCCGGGGGTTTTTT".data) 0 5 :=
  ⟨by decide, by decide, by decide, by decide⟩

/-- C1, amended: for every successful call on a source containing the
normalized target exactly once, the returned forward primer equals the
recognition site of the forward enzyme concatenated before the
f_len-length window of the normalized source immediately preceding the
target, and the returned reverse primer equals the recognition site of
the reverse enzyme concatenated before the reverse complement of the
r_len-length window immediately following the target. -/
theorem design_primers_primer_windows (full tgt : List Char) (f_len r_len : ℕ)
    (fe re : List Char) (rf rr : PrimerRow) (start : ℕ)
    (hone : subCount (normalize full) (normalize tgt) = 1)
    (hfind : findSub (normalize full) (normalize tgt) = some start)
    (hok : design_primers full tgt f_len r_len fe re = .ok (rf, rr)) :
    rf.seq = (enz_get fe).getD [] ++ pySlice (normalize full) (start - f_len) start ∧
    rr.seq = (enz_get re).getD [] ++ reverse_complement (pySlice (normalize full)
      (start + (normalize tgt).length) (start + (normalize tgt).length + r_len)) := by
  obtain ⟨s0, fsite, rsite, hf0, hfe, hre, hfl, hlt, h1, h2⟩ := design_primers_ok_inv hok
  rw [hfind] at hf0
  injection hf0 with hs0
  subst hs0
  subst h1
  subst h2
  exact ⟨by simp [mkRow, hfe], by simp [mkRow, hre]⟩

/-- C1, witness: the amended theorem applied to the concrete successful
call of the counterexample. -/
theorem design_primers_primer_windows_witness :
    subCount (normalize "AAAAACCCCCGGGGGTTTTTT".data) (normalize "CCCCCGGGGG".data) = 1 ∧
    findSub (normalize "AAAAACCCCCGGGGGTTTTTT".data) (normalize "CCCCCGGGGG".data) = some 5 ∧
    ((mkRow "Forward".data
        ("GAATTC".data ++ pySlice (normalize "AAAAACCCCCGGGGGTTTTTT".data) (5 - 5) 5)
        (gcVal ("GAATTC".data
          ++ pySlice (normalize "AAAAACCCCCGGGGGTTTTTT".data) (5 - 5) 5))).seq
        = (enz_get "EcoRI".data).getD []
          ++ pySlice (normalize "AAAAACCCCCGGGGGTTTTTT".data) (5 - 5) 5 ∧
     (mkRow "Reverse".data
        ("GAATTC".data ++ reverse_complement
          (pySlice (normalize "AAAAACCCCCGGGGGTTTTTT".data)
            (5 + (normalize "CCCCCGGGGG".data).length)
            (5 + (normalize "CCCCCGGGGG".data).length + 5)))
        (gcVal ("GAATTC".data ++ reverse_complement
          (pySlice (normalize "AAAAACCCCCGGGGGTTTTTT".data)
            (5 + (normalize "CCCCCGGGGG".data).length)
            (5 + (normalize "CCCCCGGGGG".data).length + 5))))).seq
        = (enz_get "EcoRI".data).getD []
          ++ reverse_complement (pySlice (normalize "AAAAACCCCCGGGGGTTTTTT".data)
            (5 + (normalize "CCCCCGGGGG".data).length)
            (5 + (normalize "CCCCCGGGGG".data).length + 5))) := by
  refine ⟨by decide, by decide, ?_⟩
  have e1 : design_core (normalize "AAAAACCCCCGGGGGTTTTTT".data)
      (normalize "CCCCCGGGGG".data) 5 5 "EcoRI".data "EcoRI".data
      = mkRows
        ("GAATTC".data ++ pySlice (normalize "AAAAACCCCCGGGGGTTTTTT".data) (5 - 5) 5)
        ("GAATTC".data ++ reverse_complement
          (pySlice (normalize "AAAAACCCCCGGGGGTTTTTT".data)
            (5 + (normalize "CCCCCGGGGG".data).length)
            (5 + (normalize "CCCCCGGGGG".data).length + 5))) :=
    design_core_success (by decide) (by decide) (by decide) (by decide)
      (by decide) (by decide)
  have e2 := e1.trans (mkRows_ok (by decide) (by decide))
  exact design_primers_primer_windows "AAAAACCCCCGGGGGTTTTTT".data "CCCCCGGGGG".data
    5 5 "EcoRI".data "EcoRI".data _ _ 5 (by decide) (by decide) e2

/-- C2, counterexample: on the source AGAATTCAGGGGTTTA with target GGGG,
f_len 8, r_len 3 and enzyme EcoRI, the target occurs at index 8, the
leading flank has exactly 8 bases and 4 bases follow the target, so
neither of the two error conditions named by the claim holds — yet
design_primers raises, because the EcoRI site GAATTC occurs inside the
forward primer core (the check on lines 62-63). -/
theorem design_primers_third_error_condition :
    design_primers "AGAATTCAGGGGTTTA".data "GGGG".data 8 3 "EcoRI".data "EcoRI".data
      = Except.error DesignError.enzymeCollision ∧
    findSub (normalize "AGAATTCAGGGGTTTA".data) (normalize "GGGG".data) = some 8 ∧
    ¬(8 < 8) ∧
    ¬((normalize "AGAATTCAGGGGTTTA".data).length
        - (8 + (normalize "GGGG".data).length) < 3) :=
  ⟨by decide, by decide, by decide, by decide⟩

/-- C2, amended: for enzyme names drawn from the dictionary,
design_primers raises an error if and only if the normalized target is
absent from the normalized source, or the first occurrence has fewer than
f_len bases before it, or at most r_len bases after it (the code rejects
a remainder of exactly r_len as well), or the recognition site of the
selected enzyme occurs inside the corresponding primer core. -/
theorem design_primers_error_iff (full tgt : List Char) (f_len r_len : ℕ)
    (fe re : List Char)
    (hfe : (enz_get fe).isSome = true) (hre : (enz_get re).isSome = true) :
    (design_primers full tgt f_len r_len fe re).isOk = false ↔
      errCond (normalize full) (normalize tgt) f_len r_len fe re := by
  obtain ⟨fsite, hfe⟩ := Option.isSome_iff_exists.mp hfe
  obtain ⟨rsite, hre⟩ := Option.isSome_iff_exists.mp hre
  unfold design_primers
  cases hfind : findSub (normalize full) (normalize tgt) with
  | none =>
    rw [design_core_find_none _ _ _ _ _ _ hfind]
    exact iff_of_true rfl (errCond_none f_len r_len fe re hfind)
  | some start =>
    rw [errCond_some f_len r_len fe re hfind]
    by_cases hins : start < f_len ∨
        (normalize full).length ≤ start + (normalize tgt).length + r_len
    · rw [design_core_insufficient fe re hfind hins]
      exact iff_of_true rfl (by tauto)
    · by_cases hcf : fsite <:+: pySlice (normalize full) (start - f_len) start
      · rw [design_core_collision_f re hfind hins hfe hcf]
        refine iff_of_true rfl ?_
        right; right; left
        rw [hfe]
        exact hcf
      · by_cases hcr : rsite <:+: reverse_complement (pySlice (normalize full)
            (start + (normalize tgt).length) (start + (normalize tgt).length + r_len))
        · rw [design_core_collision_r hfind hins hfe hcf hre hcr]
          refine iff_of_true rfl ?_
          right; right; right
          rw [hre]
          exact hcr
        · rw [design_core_success hfind hins hfe hcf hre hcr]
          rw [mkRows_ok
            (fun hc => enz_get_ne_nil hfe (List.append_eq_nil.mp hc).1)
            (fun hc => enz_get_ne_nil hre (List.append_eq_nil.mp hc).1)]
          refine iff_of_false (fun hc => Bool.noConfusion hc) ?_
          rintro (h | h | h | h)
          · exact hins (Or.inl h)
          · exact hins (Or.inr h)
          · rw [hfe] at h
            exact hcf h
          · rw [hre] at h
            exact hcr h

/-- C2, witness: the amended characterization applied to the concrete
collision input, with both enzyme names in the dictionary. -/
theorem design_primers_error_iff_witness :
    (design_primers "AGAATTCAGGGGTTTA".data "GGGG".data 8 3
        "EcoRI".data "EcoRI".data).isOk = false ↔
      errCond (normalize "AGAATTCAGGGGTTTA".data) (normalize "GGGG".data) 8 3
        "EcoRI".data "EcoRI".data :=
  design_primers_error_iff "AGAATTCAGGGGTTTA".data "GGGG".data 8 3
    "EcoRI".data "EcoRI".data (by decide) (by decide)

/-- C3: whenever the normalized source contains the normalized target but
the flanking region is insufficient — fewer than f_len bases before the
first occurrence, or fewer than r_len bases after it — design_primers
raises the insufficient-flank ValueError, so no truncated primer is ever
returned. -/
theorem design_primers_insufficient_flank_error (full tgt : List Char)
    (f_len r_len : ℕ) (fe re : List Char) (start : ℕ)
    (hfind : findSub (normalize full) (normalize tgt) = some start)
    (hins : start < f_len ∨
      (normalize full).length - (start + (normalize tgt).length) < r_len) :
    design_primers full tgt f_len r_len fe re = .error .insufficientFlank := by
  unfold design_primers
  apply design_core_insufficient fe re hfind
  rcases hins with h | h
  · exact Or.inl h
  · exact Or.inr (by omega)

/-- C3, witness: the theorem applied to a source whose leading flank has
only 5 bases when 6 are requested. -/
theorem design_primers_insufficient_flank_error_witness :
    findSub (normalize "AAAAACCCCC".data) (normalize "CCCCC".data) = some 5 ∧
    design_primers "AAAAACCCCC".data "CCCCC".data 6 2 "EcoRI".data "EcoRI".data
      = Except.error DesignError.insufficientFlank :=
  ⟨by decide,
    design_primers_insufficient_flank_error "AAAAACCCCC".data "CCCCC".data 6 2
      "EcoRI".data "EcoRI".data 5 (by decide) (by decide)⟩

/-- C4: reverse_complement is an involution — applying it twice returns
the original string.  This holds for arbitrary strings because translate
fixes every character outside ACGT and swaps the pairs A,T and C,G. -/
theorem reverse_complement_involutive (s : List Char) :
    reverse_complement (reverse_complement s) = s := by
  have hcc : comp ∘ comp = id := funext comp_comp
  simp [reverse_complement, hcc]

/-- C5, counterexample: on the empty string calc_gc_content divides by
len(seq) = 0 and raises ZeroDivisionError instead of returning a number
in the interval 0 to 100, so the claim fails for the input of the empty
string. -/
theorem calc_gc_content_empty_raises :
    ¬ ∃ q : ℚ, calc_gc_content [] = some q ∧ 0 ≤ q ∧ q ≤ 100 := by
  rintro ⟨q, hq, -, -⟩
  simp [calc_gc_content] at hq

/-- C5, amended: for every nonempty string, calc_gc_content returns a
number in the closed interval 0 to 100, and the result is invariant to
letter case — any string with the same uppercasing yields the same
value. -/
theorem calc_gc_content_bounds (s : List Char) (h : s ≠ []) :
    ∃ q : ℚ, calc_gc_content s = some q ∧ 0 ≤ q ∧ q ≤ 100 ∧
      ∀ t : List Char, t.map Char.toUpper = s.map Char.toUpper →
        calc_gc_content t = calc_gc_content s := by
  have hl0 : ¬ s.length = 0 := fun hc => h (List.length_eq_zero.mp hc)
  refine ⟨gcVal s, ?_, (gcVal_bounds h).1, (gcVal_bounds h).2, ?_⟩
  · unfold calc_gc_content
    rw [if_neg hl0]
  · intro t ht
    have hlen : t.length = s.length := by
      have := congrArg List.length ht
      simpa using this
    have hgc : gcCount t = gcCount s := by
      unfold gcCount
      rw [ht]
    unfold calc_gc_content gcVal
    rw [hlen, hgc]

/-- C5, witness: the amended theorem applied to the four-base string
GATC. -/
theorem calc_gc_content_bounds_witness :
    "GATC".data ≠ [] ∧
    (∃ q : ℚ, calc_gc_content "GATC".data = some q ∧ 0 ≤ q ∧ q ≤ 100 ∧
      ∀ t : List Char, t.map Char.toUpper = "GATC".data.map Char.toUpper →
        calc_gc_content t = calc_gc_content "GATC".data) :=
  ⟨by decide, calc_gc_content_bounds "GATC".data (by decide)⟩

/-- C6: design_primers is invariant to input normalization — two source
strings with the same normalized form (equal after uppercasing and
deleting whitespace, which is exactly what inserting whitespace or
changing letter case preserves) and likewise two target strings yield
identical results, the other four arguments held fixed. -/
theorem design_primers_norm_invariant (s1 t1 s2 t2 : List Char) (f_len r_len : ℕ)
    (fe re : List Char)
    (hs : normalize s1 = normalize s2) (ht : normalize t1 = normalize t2) :
    design_primers s1 t1 f_len r_len fe re = design_primers s2 t2 f_len r_len fe re := by
  unfold design_primers
  rw [hs, ht]

/-- C6, witness: a lowercased source with embedded spaces and a newline,
and a mixed-case target with a space, give the same result as the clean
uppercase call. -/
theorem design_primers_norm_invariant_witness :
    normalize "aaaaa cCCCC\ngggggtttttt".data = normalize "AAAAACCCCCGGGGGTTTTTT".data ∧
    normalize "CCccCGG GGG".data = normalize "CCCCCGGGGG".data ∧
    design_primers "aaaaa cCCCC\ngggggtttttt".data "CCccCGG GGG".data 5 5
        "EcoRI".data "EcoRI".data
      = design_primers "AAAAACCCCCGGGGGTTTTTT".data "CCCCCGGGGG".data 5 5
        "EcoRI".data "EcoRI".data :=
  ⟨by decide, by decide,
    design_primers_norm_invariant "aaaaa cCCCC\ngggggtttttt".data "CCccCGG GGG".data
      "AAAAACCCCCGGGGGTTTTTT".data "CCCCCGGGGG".data 5 5 "EcoRI".data "EcoRI".data
      (by decide) (by decide)⟩

/-- C7: design_primers is deterministic and stateless — in any session of
calls, the result of the final call depends only on its own arguments:
whatever sequence of earlier calls preceded it, the last result is the
same. -/
theorem design_primers_stateless (h1 h2 : List DesignArgs) (a : DesignArgs) :
    (runSession (h1 ++ [a])).getLast? = (runSession (h2 ++ [a])).getLast? := by
  unfold runSession
  rw [List.map_append, List.map_append]
  simp [List.getLast?_concat]

/-- C8: on every successful call, the selected recognition sites are
prepended at the five-prime end of both primers — the forward primer is
the forward-enzyme site before the preceding window, the reverse primer
is the reverse-enzyme site before the reverse complement of the
following window — and the reported Length of each primer equals its
requested core length plus the length of its enzyme site. -/
theorem design_primers_site_prepended (full tgt : List Char) (f_len r_len : ℕ)
    (fe re : List Char) (rf rr : PrimerRow) (start : ℕ)
    (hfind : findSub (normalize full) (normalize tgt) = some start)
    (hok : design_primers full tgt f_len r_len fe re = .ok (rf, rr)) :
    rf.seq = (enz_get fe).getD [] ++ pySlice (normalize full) (start - f_len) start ∧
    rr.seq = (enz_get re).getD [] ++ reverse_complement (pySlice (normalize full)
      (start + (normalize tgt).length) (start + (normalize tgt).length + r_len)) ∧
    rf.len = ((enz_get fe).getD []).length + f_len ∧
    rr.len = ((enz_get re).getD []).length + r_len := by
  obtain ⟨s0, fsite, rsite, hf0, hfe, hre, hfl, hlt, h1, h2⟩ := design_primers_ok_inv hok
  rw [hfind] at hf0
  injection hf0 with hs0
  subst hs0
  subst h1
  subst h2
  refine ⟨by simp [mkRow, hfe], by simp [mkRow, hre], ?_, ?_⟩
  · simp only [mkRow, hfe, Option.getD_some, List.length_append]
    rw [pySlice_length (by omega) (by omega)]
    omega
  · simp only [mkRow, hre, Option.getD_some, List.length_append,
      reverse_complement_length]
    rw [pySlice_length (by omega) (by omega)]
    omega

/-- C8, witness: the theorem applied to the concrete successful EcoRI
call, whose two primers both carry the 6-base site and report length
11 = 6 + 5. -/
theorem design_primers_site_prepended_witness :
    findSub (normalize "AAAAACCCCCGGGGGTTTTTT".data) (normalize "CCCCCGGGGG".data) = some 5 ∧
    ((mkRow "Forward".data
        ("GAATTC".data ++ pySlice (normalize "AAAAACCCCCGGGGGTTTTTT".data) (5 - 5) 5)
        (gcVal ("GAATTC".data
          ++ pySlice (normalize "AAAAACCCCCGGGGGTTTTTT".data) (5 - 5) 5))).seq
        = (enz_get "EcoRI".data).getD []
          ++ pySlice (normalize "AAAAACCCCCGGGGGTTTTTT".data) (5 - 5) 5 ∧
     (mkRow "Reverse".data
        ("GAATTC".data ++ reverse_complement
          (pySlice (normalize "AAAAACCCCCGGGGGTTTTTT".data)
            (5 + (normalize "CCCCCGGGGG".data).length)
            (5 + (normalize "CCCCCGGGGG".data).length + 5)))
        (gcVal ("GAATTC".data ++ reverse_complement
          (pySlice (normalize "AAAAACCCCCGGGGGTTTTTT".data)
            (5 + (normalize "CCCCCGGGGG".data).length)
            (5 + (normalize "CCCCCGGGGG".data).length + 5))))).seq
        = (enz_get "EcoRI".data).getD []
          ++ reverse_complement (pySlice (normalize "AAAAACCCCCGGGGGTTTTTT".data)
            (5 + (normalize "CCCCCGGGGG".data).length)
            (5 + (normalize "CCCCCGGGGG".data).length + 5)) ∧
     (mkRow "Forward".data
        ("GAATTC".data ++ pySlice (normalize "AAAAACCCCCGGGGGTTTTTT".data) (5 - 5) 5)
        (gcVal ("GAATTC".data
          ++ pySlice (normalize "AAAAACCCCCGGGGGTTTTTT".data) (5 - 5) 5))).len
        = ((enz_get "EcoRI".data).getD []).length + 5 ∧
     (mkRow "Reverse".data
        ("GAATTC".data ++ reverse_complement
          (pySlice (normalize "AAAAACCCCCGGGGGTTTTTT".data)
            (5 + (normalize "CCCCCGGGGG".data).length)
            (5 + (normalize "CCCCCGGGGG".data).length + 5)))
        (gcVal ("GAATTC".data ++ reverse_complement
          (pySlice (normalize "AAAAACCCCCGGGGGTTTTTT".data)
            (5 + (normalize "CCCCCGGGGG".data).length)
            (5 + (normalize "CCCCCGGGGG".data).length + 5))))).len
        = ((enz_get "EcoRI".data).getD []).length + 5) := by
  refine ⟨by decide, ?_⟩
  have e1 : design_core (normalize "AAAAACCCCCGGGGGTTTTTT".data)
      (normalize "CCCCCGGGGG".data) 5 5 "EcoRI".data "EcoRI".data
      = mkRows
        ("GAATTC".data ++ pySlice (normalize "AAAAACCCCCGGGGGTTTTTT".data) (5 - 5) 5)
        ("GAATTC".data ++ reverse_complement
          (pySlice (normalize "AAAAACCCCCGGGGGTTTTTT".data)
            (5 + (normalize "CCCCCGGGGG".data).length)
            (5 + (normalize "CCCCCGGGGG".data).length + 5))) :=
    design_core_success (by decide) (by decide) (by decide) (by decide)
      (by decide) (by decide)
  have e2 := e1.trans (mkRows_ok (by decide) (by decide))
  exact design_primers_site_prepended "AAAAACCCCCGGGGGTTTTTT".data "CCCCCGGGGG".data
    5 5 "EcoRI".data "EcoRI".data _ _ 5 (by decide) e2

/-- C9: at the right-hand boundary, when exactly r_len bases follow the
target occurrence — end + r_len equals the length of the normalized
source, so a full window exists — design_primers still raises the
insufficient-flank error, because line 56 tests with a non-strict
comparison. -/
theorem design_primers_right_boundary_error (full tgt : List Char)
    (f_len r_len : ℕ) (fe re : List Char) (start : ℕ)
    (hfind : findSub (normalize full) (normalize tgt) = some start)
    (hb : start + (normalize tgt).length + r_len = (normalize full).length) :
    design_primers full tgt f_len r_len fe re = .error .insufficientFlank := by
  unfold design_primers
  exact design_core_insufficient fe re hfind (Or.inr (le_of_eq hb.symm))

/-- C9, witness: a 15-base source whose target ends at index 10 with
exactly 5 bases after it; requesting a 5-base reverse primer errors. -/
theorem design_primers_right_boundary_error_witness :
    findSub (normalize "AAAAACCCCCGGGGG".data) (normalize "CCCCC".data) = some 5 ∧
    design_primers "AAAAACCCCCGGGGG".data "CCCCC".data 5 5 "EcoRI".data "BamHI".data
      = Except.error DesignError.insufficientFlank :=
  ⟨by decide,
    design_primers_right_boundary_error "AAAAACCCCCGGGGG".data "CCCCC".data 5 5
      "EcoRI".data "BamHI".data 5 (by decide) (by decide)⟩

/-- C10: for every string, hairpin_score is at most dimer_score — an
index whose window equals its own reverse complement also counts for
dimer_score, since that reverse complement is the window itself and
therefore a substring of the string. -/
theorem hairpin_score_le_dimer_score (s : List Char) :
    hairpin_score s ≤ dimer_score s := by
  unfold hairpin_score dimer_score
  apply List.countP_mono_left
  intro i _ h
  have he : pySlice s i (i + 4) = reverse_complement (pySlice s i (i + 4)) := by
    simpa using h
  simp only [decide_eq_true_eq]
  rw [← he]
  exact slice_isSub s i (i + 4)

end PrimerApp
